import Mathlib

/-!
Verification of `merv/models/backbones/video/languagebind/video/processing_video.py`.

The Python source is embedded shallowly:
* real (Python float) arithmetic is modelled exactly over `ℚ`; IEEE rounding of the
  Python implementation is not modelled;
* tensors are shapes together with total value functions; claims compare entries
  only at in-range indices;
* exceptions are modelled with `Except PyError`;
* the external collaborators (the decord decoder and the tokenizer) are oracle
  parameters of the embedded functions.
-/

/-- Python exception kinds that the embedded code can surface.  `decodeError`
stands for whatever the decord backend raises on an unreadable path. -/
inductive PyError
  | nameError
  | valueError
  | runtimeError
  | typeError
  | zeroDivisionError
  | assertionError
  | decodeError
deriving DecidableEq

/-- A video tensor with layout `(C, T, H, W)` (`processing_video.py` comment at the
permute call).  `val` is a total function; entries outside the shape are junk and
never compared by the claims. -/
structure VideoTensor where
  c : ℕ
  t : ℕ
  h : ℕ
  w : ℕ
  val : ℕ → ℕ → ℕ → ℕ → ℚ

/-- Truncation toward zero: the behaviour of numpy `astype(int)` (a C cast) used by
`np.linspace(..., dtype=int)`. -/
def ratTrunc (q : ℚ) : ℤ := if q < 0 then ⌈q⌉ else ⌊q⌋

/-- numpy `np.linspace(start, stop, num)` with `endpoint=True`, over exact rationals:
`num = 1` yields `[start]`; otherwise point `i` is `start + i * ((stop - start) / (num - 1))`.
numpy's final overwrite `y[-1] = stop` is a no-op in exact arithmetic (the formula
already yields `stop` at `i = num - 1`), so it is not repeated here. -/
def ratLinspace (start stop : ℚ) (num : ℕ) : List ℚ :=
  if num = 1 then [start]
  else (List.range num).map (fun i : ℕ => start + (i : ℚ) * ((stop - start) / ((num : ℚ) - 1)))

/-- Line 94 of the source: `frame_id_list = np.linspace(0, duration - 1, num_frames, dtype=int)`. -/
def frameIdList (duration numFrames : ℕ) : List ℤ :=
  (ratLinspace 0 ((duration : ℚ) - 1) numFrames).map ratTrunc

/-- Follows the spec's words, for comparison with `frameIdList`: frame indices obtained
by "linear interpolation rounded to nearest integer" (spec section 3, claim C3). -/
def frameIdListNearestSpec (duration numFrames : ℕ) : List ℤ :=
  (ratLinspace 0 ((duration : ℚ) - 1) numFrames).map round

/-- The three channel-wise normalization means from the source (exact decimals). -/
def OPENAI_DATASET_MEAN : List ℚ := [0.48145466, 0.4578275, 0.40821073]

/-- The three channel-wise normalization standard deviations from the source. -/
def OPENAI_DATASET_STD : List ℚ := [0.26862954, 0.26130258, 0.27577711]

/-- First pipeline stage, `Lambda(lambda x: x / 255.0)`. -/
def div255 (x : VideoTensor) : VideoTensor :=
  { x with val := fun c t hh ww => x.val c t hh ww / 255 }

/-- `NormalizeVideo(mean=OPENAI_DATASET_MEAN, std=OPENAI_DATASET_STD)`: channel-wise
`(v - mean[c]) / std[c]`.  The torchvision broadcasting failure for channel counts
other than 3 is not modelled (all claims use 3-channel inputs); out-of-range
channels read fallback constants. -/
def normalizeVideo (x : VideoTensor) : VideoTensor :=
  { x with
    val := fun c t hh ww =>
      (x.val c t hh ww - OPENAI_DATASET_MEAN.getD c 0) / OPENAI_DATASET_STD.getD c 1 }

/-- Source index for bilinear interpolation with `align_corners=False`
(PyTorch `area_pixel_compute_source_index`): `scale * (dst + 0.5) - 0.5`,
clamped below at 0. -/
def srcIndex (scale : ℚ) (dst : ℕ) : ℚ :=
  let s := scale * ((dst : ℚ) + 1/2) - 1/2
  if s < 0 then 0 else s

/-- `torch.nn.functional.interpolate(x, size=(newH, newW), mode="bilinear",
align_corners=False)` on a `(C, T, H, W)` tensor (PyTorch interpolates the trailing
two axes).  For output pixel `(oh, ow)` the four neighbouring input pixels are
blended with the fractional weights of the source index. -/
def interpolate (x : VideoTensor) (newH newW : ℕ) : VideoTensor :=
  { c := x.c, t := x.t, h := newH, w := newW,
    val := fun c t oh ow =>
      let rh := srcIndex ((x.h : ℚ) / (newH : ℚ)) oh
      let rw := srcIndex ((x.w : ℚ) / (newW : ℚ)) ow
      let h0 : ℕ := (⌊rh⌋).toNat
      let w0 : ℕ := (⌊rw⌋).toNat
      let h1 : ℕ := min (h0 + 1) (x.h - 1)
      let w1 : ℕ := min (w0 + 1) (x.w - 1)
      let dh : ℚ := rh - (h0 : ℚ)
      let dw : ℚ := rw - (w0 : ℚ)
      (1 - dh) * (1 - dw) * x.val c t h0 w0 + (1 - dh) * dw * x.val c t h0 w1 +
        dh * (1 - dw) * x.val c t h1 w0 + dh * dw * x.val c t h1 w1 }

/-- `ShortSideScale.forward` (source lines 44-60): scale so the short side equals
`size`, via `int(math.floor((long / short) * size))` on the long side.  A zero
divisor raises Python's division error; the 4-dimensionality assertion is enforced
by the `VideoTensor` type and the float32 dtype assertion is not modelled. -/
def shortSideScale (size : ℕ) (x : VideoTensor) : Except PyError VideoTensor :=
  if x.w < x.h then
    if x.w = 0 then .error .zeroDivisionError
    else
      let newH : ℕ := (⌊((x.h : ℚ) / (x.w : ℚ)) * (size : ℚ)⌋).toNat
      .ok (interpolate x newH size)
  else
    if x.h = 0 then .error .zeroDivisionError
    else
      let newW : ℕ := (⌊((x.w : ℚ) / (x.h : ℚ)) * (size : ℚ)⌋).toNat
      .ok (interpolate x size newW)

/-- Python `round(d / 2.0)` for a natural `d` (banker's rounding at .5 halves),
as used by torchvision's video center crop for the top-left corner. -/
def pyRoundHalf (d : ℕ) : ℕ :=
  if d % 2 = 0 then d / 2
  else if (d / 2) % 2 = 0 then d / 2 else d / 2 + 1

/-- `CenterCropVideo(224)`: asserts the clip is at least as large as the crop,
then takes `clip[..., i : i + th, j : j + tw]` with `i = round((h - th) / 2.0)`,
`j = round((w - tw) / 2.0)`. -/
def centerCropVideo (cropSize : ℕ) (x : VideoTensor) : Except PyError VideoTensor :=
  if cropSize ≤ x.h ∧ cropSize ≤ x.w then
    let i := pyRoundHalf (x.h - cropSize)
    let j := pyRoundHalf (x.w - cropSize)
    .ok { c := x.c, t := x.t, h := cropSize, w := cropSize,
          val := fun c t hh ww => x.val c t (i + hh) (j + ww) }
  else .error .assertionError

/-- Horizontal flip (`clip.flip(-1)`), the effect of `RandomHorizontalFlipVideo`
when its coin lands below `p`. -/
def hflipVideo (x : VideoTensor) : VideoTensor :=
  { x with val := fun c t hh ww => x.val c t hh (x.w - 1 - ww) }

/-- The transform pipeline built by `get_video_transform` for the decord backend:
`Compose([x/255, NormalizeVideo, ShortSideScale(224), CenterCropVideo(224),
RandomHorizontalFlipVideo(p=0.5)])`.  The random draw of the final stage is made
explicit: `flip` is true exactly when the sampled uniform lands below `p = 0.5`. -/
def videoTransform (flip : Bool) (x : VideoTensor) : Except PyError VideoTensor := do
  let x1 := div255 x
  let x2 := normalizeVideo x1
  let x3 ← shortSideScale 224 x2
  let x4 ← centerCropVideo 224 x3
  pure (if flip then hflipVideo x4 else x4)

/-- `get_video_transform` (source lines 63-79): returns the pipeline for the
`"decord"` backend and raises `NameError` for every other backend string. -/
def getVideoTransform (backend : String) :
    Except PyError (Bool → VideoTensor → Except PyError VideoTensor) :=
  if backend = "decord" then .ok videoTransform else .error .nameError

/-- A decoded video as decord returns it: `len(vr)` frames in `(T, H, W, C)` layout. -/
structure RawVideo where
  numFrames : ℕ
  h : ℕ
  w : ℕ
  c : ℕ
  val : ℕ → ℕ → ℕ → ℕ → ℚ

/-- `load_and_transform_video` (source lines 82-100).  The decord `VideoReader` is an
oracle `decoder`; whatever it raises on a bad path surfaces as `decodeError`.
`get_batch` followed by `permute(3, 0, 1, 2)` turns frame indices into a
`(C, T, H, W)` tensor.  Negative frame indices cannot arise for `duration ≥ 1`, so
the `toNat` clamp is benign on every input the claims quantify over. -/
def loadAndTransformVideo (decoder : String → Except Unit RawVideo) (path : String)
    (transform : VideoTensor → Except PyError VideoTensor)
    (backend : String) (numFrames : ℕ) : Except PyError VideoTensor :=
  if backend = "decord" then
    match decoder path with
    | .error _ => .error .decodeError
    | .ok vr =>
      let duration := vr.numFrames
      let ids := frameIdList duration numFrames
      let videoData : VideoTensor :=
        { c := vr.c, t := ids.length, h := vr.h, w := vr.w,
          val := fun c i hh ww => vr.val (ids.getD i 0).toNat hh ww c }
      transform videoData
  else .error .nameError

/-- Dictionary values that can appear in a processor result: tokenizer fields and
the stacked pixel batch. -/
inductive Val
  | pixBatch (ts : List VideoTensor)
  | nat (n : ℕ)
  | bool (b : Bool)
  | str (s : String)

/-- The vision sub-configuration fields the processor reads. -/
structure VisionConfig where
  video_decode_backend : String
  num_frames : ℕ

/-- The `images` argument: either a single item or an already-built list
(`isinstance(x, list)` dispatch). -/
inductive ImagesArg
  | single (path : String)
  | list (paths : List String)
deriving DecidableEq

/-- `make_list_of_images` (source lines 27-30). -/
def make_list_of_images : ImagesArg → List String
  | .single p => [p]
  | .list ps => ps

/-- `torch.stack` on a list of per-clip tensors.  Only the behaviour the claims
depend on is modelled: stacking an empty list raises `RuntimeError`; a nonempty
stack is the batch itself (per-item shapes agree for every input reachable from
`__call__`, all items passing through the same pipeline). -/
def torchStack (ts : List VideoTensor) : Except PyError (List VideoTensor) :=
  match ts with
  | [] => .error .runtimeError
  | _ => .ok ts

/-- Dictionary assignment `enc[k] = v`: replace the value when the key is present,
otherwise append the new entry. -/
def setKey (enc : List (String × Val)) (k : String) (v : Val) : List (String × Val) :=
  if enc.any (fun p => p.1 = k) then enc.map (fun p => if p.1 = k then (k, v) else p)
  else enc ++ [(k, v)]

/-- The per-item image feature list built by `__call__` (source lines 129-138):
`make_list_of_images`, then `load_and_transform_video` per item with the
processor's transform and config.  `flips` supplies the independent coin of the
random-flip stage for each item. -/
def imageFeatures (decoder : String → Except Unit RawVideo) (cfg : VisionConfig)
    (flips : ℕ → Bool) (images : ImagesArg) : Except PyError (List VideoTensor) :=
  ((make_list_of_images images).enum).mapM fun ip =>
    loadAndTransformVideo decoder ip.2 (videoTransform (flips ip.1))
      cfg.video_decode_backend cfg.num_frames

/-- `LanguageBindVideoProcessor.__call__` (source lines 114-147).  The tokenizer is
an oracle receiving the text and the context length (the fixed
padding/truncation/return-tensor arguments carry no information); it is total, as
tokenizer failures are outside this module.  Tokenization happens before image
processing in the source, and since the tokenizer is total the result below is
reached in the same order. -/
def processorCall (decoder : String → Except Unit RawVideo)
    (tokenizer : String → ℕ → List (String × Val))
    (cfg : VisionConfig) (flips : ℕ → Bool)
    (images : Option ImagesArg) (text : Option String) (contextLength : ℕ) :
    Except PyError (List (String × Val)) :=
  match text, images with
  | none, none => .error .valueError
  | tOpt, some imgs =>
    match imageFeatures decoder cfg flips imgs with
    | .error e => .error e
    | .ok feats =>
      match torchStack feats with
      | .error e => .error e
      | .ok stacked =>
        match tOpt with
        | some t => .ok (setKey (tokenizer t contextLength) "pixel_values" (Val.pixBatch stacked))
        | none => .ok [("pixel_values", Val.pixBatch stacked)]
  | some t, none => .ok (tokenizer t contextLength)

/-- Keyword arguments of a Python call, as a lookup function (dictionary order is
not observable through the tokenizer oracle). -/
abbrev Kwargs := String → Option Val

/-- Update one keyword. -/
def kwSet (kw : Kwargs) (k : String) (v : Val) : Kwargs :=
  fun k' => if k' = k then some v else kw k'

/-- `LanguageBindVideoProcessor.batch_decode` (source lines 152-157).  The Python
signature is `(self, skip_special_tokens=True, *args, **kwargs)`: a first
positional argument binds to `skip_special_tokens`; passing it both positionally
and as a keyword is a `TypeError`.  The body forwards
`tokenizer.batch_decode(*args, skip_special_tokens=skip_special_tokens, **kwargs)`
and returns its result. -/
def batch_decode {R : Type} (tokBatchDecode : List Val → Kwargs → R)
    (pos : List Val) (kw : Kwargs) : Except PyError R :=
  match pos with
  | [] =>
    .ok (tokBatchDecode []
      (kwSet kw "skip_special_tokens" ((kw "skip_special_tokens").getD (Val.bool true))))
  | a :: rest =>
    if (kw "skip_special_tokens").isSome then .error .typeError
    else .ok (tokBatchDecode rest (kwSet kw "skip_special_tokens" a))

/-- `LanguageBindVideoProcessor.decode` (source lines 159-164), same shape as
`batch_decode` but forwarding to the tokenizer's `decode`. -/
def decode {R : Type} (tokDecode : List Val → Kwargs → R)
    (pos : List Val) (kw : Kwargs) : Except PyError R :=
  match pos with
  | [] =>
    .ok (tokDecode []
      (kwSet kw "skip_special_tokens" ((kw "skip_special_tokens").getD (Val.bool true))))
  | a :: rest =>
    if (kw "skip_special_tokens").isSome then .error .typeError
    else .ok (tokDecode rest (kwSet kw "skip_special_tokens" a))

/-- Follows the spec's words, for comparison with `batch_decode` and `decode`:
"forward their arguments unchanged to the underlying tokenizer ... adding only a
default skip_special_tokens=True, and return the tokenizer's result verbatim". -/
def forwardWithDefaultSpec {R : Type} (tokMethod : List Val → Kwargs → R)
    (pos : List Val) (kw : Kwargs) : R :=
  tokMethod pos
    (fun k => if k = "skip_special_tokens" then some ((kw k).getD (Val.bool true)) else kw k)

/-- The tensor produced by `centerCropVideo 224` on a sufficiently large input. -/
def cropOut (y : VideoTensor) : VideoTensor :=
  { c := y.c, t := y.t, h := 224, w := 224,
    val := fun a b c2 d2 =>
      y.val a b (pyRoundHalf (y.h - 224) + c2) (pyRoundHalf (y.w - 224) + d2) }

/-- A two-frame, 1x1, three-channel decoded video used by concrete witnesses. -/
def rawVid0 : RawVideo := ⟨2, 1, 1, 3, fun _ _ _ _ => 0⟩

/-- A decoder oracle that decodes every path to `rawVid0`. -/
def decoder0 : String → Except Unit RawVideo := fun _ => .ok rawVid0

/-- A tokenizer oracle producing a one-field encoding. -/
def tok0 : String → ℕ → List (String × Val) := fun _ _ => [("input_ids", Val.nat 0)]

/-- The processor configuration used by concrete witnesses. -/
def cfg0 : VisionConfig := ⟨"decord", 2⟩

/-- Flip coins all landing on "no flip". -/
def flips0 : ℕ → Bool := fun _ => false

/-- A 5-wide, 1-tall input used as the C7 witness (extreme aspect ratio). -/
def wit7 : VideoTensor := ⟨3, 1, 1, 5, fun _ _ _ _ => 0⟩

/-- A 5-tall, 3-wide input used as the C8 witness. -/
def wit8 : VideoTensor := ⟨3, 1, 5, 3, fun _ _ _ _ => 0⟩

/-- Extensional equality of video tensors: same shape and equal entries at every
in-range index ("the same output tensor"). -/
def VideoTensor.eqv (a b : VideoTensor) : Prop :=
  a.c = b.c ∧ a.t = b.t ∧ a.h = b.h ∧ a.w = b.w ∧
  ∀ ci ti hi wi, ci < a.c → ti < a.t → hi < a.h → wi < a.w →
    a.val ci ti hi wi = b.val ci ti hi wi

/-- Lift of `VideoTensor.eqv` to pipeline results. -/
def exceptVideoEqv : Except PyError VideoTensor → Except PyError VideoTensor → Prop
  | .ok a, .ok b => a.eqv b
  | .error e, .error e2 => e = e2
  | _, _ => False

/-- A 3x1x224x224 input whose pixel value equals its column index, so a
horizontal flip changes it. -/
def cexInput : VideoTensor := ⟨3, 1, 224, 224, fun _ _ _ ww => (ww : ℚ)⟩

/-- The `(C, T, H, W)` tensor that `load_and_transform_video` hands to the
transform when decoding `rawVid0` with two requested frames. -/
def videoData0 : VideoTensor :=
  { c := rawVid0.c, t := (frameIdList rawVid0.numFrames 2).length,
    h := rawVid0.h, w := rawVid0.w,
    val := fun c i hh ww =>
      rawVid0.val ((frameIdList rawVid0.numFrames 2).getD i 0).toNat hh ww c }

/-! ### Frame index sampling (claims C2 and C3) -/

lemma ratTrunc_eq_floor {q : ℚ} (h : 0 ≤ q) : ratTrunc q = ⌊q⌋ := if_neg (not_lt.mpr h)

lemma frameIdList_eq_map_floor (D N : ℕ) (hD : 1 ≤ D) (hN : 2 ≤ N) :
    frameIdList D N =
      (List.range N).map (fun i : ℕ => ⌊(i : ℚ) * (((D : ℚ) - 1) / ((N : ℚ) - 1))⌋) := by
  have hN1 : N ≠ 1 := by omega
  have hDq : (1 : ℚ) ≤ (D : ℚ) := by exact_mod_cast hD
  have hNq : (2 : ℚ) ≤ (N : ℚ) := by exact_mod_cast hN
  have hs : 0 ≤ ((D : ℚ) - 1) / ((N : ℚ) - 1) := by
    apply div_nonneg <;> linarith
  simp only [frameIdList, ratLinspace, if_neg hN1, List.map_map, sub_zero]
  refine List.map_congr_left fun i _ => ?_
  simp only [Function.comp_apply, zero_add]
  exact ratTrunc_eq_floor (mul_nonneg (Nat.cast_nonneg i) hs)

lemma floor_mul_monotone {s : ℚ} (hs : 0 ≤ s) :
    Monotone fun i : ℕ => ⌊(i : ℚ) * s⌋ := fun a b hab =>
  Int.floor_mono (mul_le_mul_of_nonneg_right (by exact_mod_cast hab) hs)

lemma floor_mul_strictMono {s : ℚ} (hs : 1 ≤ s) :
    StrictMono fun i : ℕ => ⌊(i : ℚ) * s⌋ := by
  apply strictMono_nat_of_lt_succ
  intro n
  have h1 : (n : ℚ) * s + 1 ≤ ((n + 1 : ℕ) : ℚ) * s := by
    push_cast
    nlinarith
  have h2 := Int.floor_mono h1
  rw [Int.floor_add_one] at h2
  omega

lemma floor_mul_last (D N : ℕ) (hD : 1 ≤ D) (hN : 2 ≤ N) :
    ⌊((N - 1 : ℕ) : ℚ) * (((D : ℚ) - 1) / ((N : ℚ) - 1))⌋ = (D : ℤ) - 1 := by
  have hNq : (2 : ℚ) ≤ (N : ℚ) := by exact_mod_cast hN
  have hN0 : ((N : ℚ) - 1) ≠ 0 := by linarith
  have hcast : ((N - 1 : ℕ) : ℚ) = (N : ℚ) - 1 := by
    have h1 : (1 : ℕ) ≤ N := by omega
    push_cast [h1]
    ring
  rw [hcast, mul_comm, div_mul_cancel₀ _ hN0]
  have hD1 : ((D : ℚ) - 1) = (((D : ℤ) - 1 : ℤ) : ℚ) := by push_cast; ring
  rw [hD1, Int.floor_intCast]

lemma floor_mul_le_last (D N i : ℕ) (hD : 1 ≤ D) (hN : 2 ≤ N) (hi : i < N) :
    ⌊(i : ℚ) * (((D : ℚ) - 1) / ((N : ℚ) - 1))⌋ ≤ (D : ℤ) - 1 := by
  have hDq : (1 : ℚ) ≤ (D : ℚ) := by exact_mod_cast hD
  have hNq : (2 : ℚ) ≤ (N : ℚ) := by exact_mod_cast hN
  have hs : 0 ≤ ((D : ℚ) - 1) / ((N : ℚ) - 1) := by
    apply div_nonneg <;> linarith
  have hle : i ≤ N - 1 := by omega
  calc ⌊(i : ℚ) * (((D : ℚ) - 1) / ((N : ℚ) - 1))⌋
      ≤ ⌊((N - 1 : ℕ) : ℚ) * (((D : ℚ) - 1) / ((N : ℚ) - 1))⌋ := floor_mul_monotone hs hle
    _ = (D : ℤ) - 1 := floor_mul_last D N hD hN

/-- C2 (amended): for a duration `D ≥ 1` and a frame count `N ≥ 2`, the sampled
index list has length `N`, starts at `0`, ends at `D - 1`, is non-decreasing, is
strictly increasing (hence duplicate-free) when `N ≤ D`, and necessarily contains
repeats when `N > D`.  (For `N = 1` the single index is `0`, not `D - 1`: see the
counterexample.) -/
theorem frame_indices_cover_and_monotone (D N : ℕ) (hD : 1 ≤ D) (hN : 2 ≤ N) :
    (frameIdList D N).length = N ∧
    (frameIdList D N).head? = some 0 ∧
    (frameIdList D N).getLast? = some ((D : ℤ) - 1) ∧
    (frameIdList D N).Pairwise (· ≤ ·) ∧
    (N ≤ D → (frameIdList D N).Pairwise (· < ·)) ∧
    (D < N → ¬ (frameIdList D N).Nodup) := by
  classical
  have hDq : (1 : ℚ) ≤ (D : ℚ) := by exact_mod_cast hD
  have hNq : (2 : ℚ) ≤ (N : ℚ) := by exact_mod_cast hN
  have hs : 0 ≤ ((D : ℚ) - 1) / ((N : ℚ) - 1) := by
    apply div_nonneg <;> linarith
  have heq := frameIdList_eq_map_floor D N hD hN
  refine ⟨?_, ?_, ?_, ?_, ?_, ?_⟩
  · rw [heq]; simp
  · rw [heq]
    obtain ⟨M, rfl⟩ : ∃ M, N = M + 1 := ⟨N - 1, by omega⟩
    rw [List.range_succ_eq_map]
    simp
  · rw [heq]
    obtain ⟨M, hM⟩ : ∃ M, N = M + 1 := ⟨N - 1, by omega⟩
    subst hM
    conv_lhs => rw [List.range_succ, List.map_append, List.map_singleton]
    rw [List.getLast?_concat]
    simpa using floor_mul_last D (M + 1) hD hN
  · rw [heq]
    exact (List.pairwise_lt_range N).map _
      (fun a b hab => floor_mul_monotone hs (le_of_lt hab))
  · intro hND
    rw [heq]
    have hs1 : 1 ≤ ((D : ℚ) - 1) / ((N : ℚ) - 1) := by
      rw [one_le_div (by linarith)]
      have : (N : ℚ) ≤ (D : ℚ) := by exact_mod_cast hND
      linarith
    exact (List.pairwise_lt_range N).map _ (fun a b hab => floor_mul_strictMono hs1 hab)
  · intro hDN hnd
    rw [heq] at hnd
    have hcard := List.toFinset_card_of_nodup hnd
    have hlen :
        ((List.range N).map (fun i : ℕ => ⌊(i : ℚ) * (((D : ℚ) - 1) / ((N : ℚ) - 1))⌋)).length = N := by
      simp
    have hsub :
        ((List.range N).map (fun i : ℕ => ⌊(i : ℚ) * (((D : ℚ) - 1) / ((N : ℚ) - 1))⌋)).toFinset ⊆
          Finset.Icc (0 : ℤ) ((D : ℤ) - 1) := by
      intro x hx
      rw [List.mem_toFinset] at hx
      obtain ⟨i, hi, rfl⟩ := List.mem_map.mp hx
      rw [List.mem_range] at hi
      exact Finset.mem_Icc.mpr
        ⟨Int.floor_nonneg.mpr (mul_nonneg (Nat.cast_nonneg i) hs),
         floor_mul_le_last D N i hD hN hi⟩
    have hD' := Finset.card_le_card hsub
    rw [Int.card_Icc] at hD'
    rw [hcard, hlen] at hD'
    simp only [sub_zero] at hD'
    omega

/-- C2 counterexample: with duration `2` and a single requested frame the code
samples `[0]`, whose last element is `0`, not `D - 1 = 1` as the claim states for
all `N ≥ 1`. -/
theorem frame_indices_single_frame_misses_end :
    frameIdList 2 1 = [0] ∧ (frameIdList 2 1).getLast? ≠ some ((2 : ℤ) - 1) := by
  have h : frameIdList 2 1 = [0] := by simp [frameIdList, ratLinspace, ratTrunc]
  refine ⟨h, ?_⟩
  rw [h]
  decide

lemma ratLinspace_nonneg {start stop : ℚ} {num : ℕ} (hstart : 0 ≤ start)
    (hstop : start ≤ stop) {q : ℚ} (hq : q ∈ ratLinspace start stop num) : 0 ≤ q := by
  unfold ratLinspace at hq
  by_cases h1 : num = 1
  · rw [if_pos h1] at hq
    simp only [List.mem_singleton] at hq
    exact hq ▸ hstart
  · rw [if_neg h1] at hq
    obtain ⟨i, hi, rfl⟩ := List.mem_map.mp hq
    rw [List.mem_range] at hi
    have hnum : 2 ≤ num := by omega
    have hnumq : (2 : ℚ) ≤ (num : ℚ) := by exact_mod_cast hnum
    have hstep : 0 ≤ (stop - start) / ((num : ℚ) - 1) :=
      div_nonneg (by linarith) (by linarith)
    have := mul_nonneg (Nat.cast_nonneg i) hstep
    linarith

/-- C3 (amended): for every duration `D ≥ 1` and positive `num_frames`, the code
produces exactly `num_frames` integer indices; they are the points of an exact
linear spacing of `num_frames` points across `[0, D-1]` rounded DOWN (numpy's
`astype(int)` truncation, which is the floor for these nonnegative values) — not
rounded to the nearest integer.  For `N ≥ 2`, index `i` is
`⌊i * (D-1) / (N-1)⌋`. -/
theorem frame_indices_count_and_truncation (D N : ℕ) (hD : 1 ≤ D) (hN : 1 ≤ N) :
    (frameIdList D N).length = N ∧
    frameIdList D N = (ratLinspace 0 ((D : ℚ) - 1) N).map (fun q => ⌊q⌋) ∧
    (2 ≤ N → ∀ i, i < N →
      (frameIdList D N).getD i 0 = ⌊(i : ℚ) * (((D : ℚ) - 1) / ((N : ℚ) - 1))⌋) := by
  have hDq : (1 : ℚ) ≤ (D : ℚ) := by exact_mod_cast hD
  refine ⟨?_, ?_, ?_⟩
  · by_cases h1 : N = 1 <;> simp [frameIdList, ratLinspace, h1]
  · unfold frameIdList
    refine List.map_congr_left fun q hq => ?_
    exact ratTrunc_eq_floor (ratLinspace_nonneg le_rfl (by linarith) hq)
  · intro hN2 i hi
    rw [frameIdList_eq_map_floor D N hD hN2, List.getD_eq_getElem?_getD,
      List.getElem?_map, List.getElem?_range hi]
    rfl

/-- C3 counterexample: for duration 8 and 4 frames the code yields `[0, 2, 4, 7]`
(truncation), while nearest-integer rounding of the same linear spacing yields
`[0, 2, 5, 7]` (the point `14/3 ≈ 4.67` rounds to 5 but truncates to 4). -/
theorem frame_indices_not_nearest_rounded :
    frameIdList 8 4 = [0, 2, 4, 7] ∧ frameIdListNearestSpec 8 4 = [0, 2, 5, 7] ∧
    frameIdList 8 4 ≠ frameIdListNearestSpec 8 4 := by
  have h1 : frameIdList 8 4 = [0, 2, 4, 7] := by
    simp [frameIdList, ratLinspace, List.range_succ, ratTrunc]
    norm_num [Rat.floor_def]
  have h2 : frameIdListNearestSpec 8 4 = [0, 2, 5, 7] := by
    simp [frameIdListNearestSpec, ratLinspace, List.range_succ]
    norm_num [round_eq, Rat.floor_def]
  refine ⟨h1, h2, ?_⟩
  rw [h1, h2]
  decide

/-- Witness for C3 at `D = 8`, `N = 4`: four indices, each the floor of the exact
linear spacing; index 2 is `⌊2 * (7/3)⌋`. -/
theorem frame_indices_count_and_truncation_witness :
    (frameIdList 8 4).length = 4 ∧
    frameIdList 8 4 = (ratLinspace 0 (((8 : ℕ) : ℚ) - 1) 4).map (fun q => ⌊q⌋) ∧
    (frameIdList 8 4).getD 2 0 =
      ⌊((2 : ℕ) : ℚ) * ((((8 : ℕ) : ℚ) - 1) / (((4 : ℕ) : ℚ) - 1))⌋ := by
  have h := frame_indices_count_and_truncation 8 4 (by decide) (by decide)
  exact ⟨h.1, h.2.1, h.2.2 (by decide) 2 (by decide)⟩

/-- Witness for C2 at `D = 5`, `N = 3`: the sampled indices have length 3, start
at 0, end at 4 and are strictly increasing. -/
theorem frame_indices_cover_and_monotone_witness :
    (frameIdList 5 3).length = 3 ∧ (frameIdList 5 3).head? = some 0 ∧
    (frameIdList 5 3).getLast? = some ((5 : ℤ) - 1) ∧
    (frameIdList 5 3).Pairwise (· < ·) := by
  have h := frame_indices_cover_and_monotone 5 3 (by decide) (by decide)
  exact ⟨h.1, h.2.1, h.2.2.1, h.2.2.2.2.1 (by decide)⟩

/-! ### Transform pipeline and backend dispatch (claims C6, C7, C8) -/

lemma ok_bind {α β : Type} (a : α) (f : α → Except PyError β) :
    (Except.ok a >>= f : Except PyError β) = f a := rfl

lemma error_bind {α β : Type} (e : PyError) (f : α → Except PyError β) :
    ((Except.error e : Except PyError α) >>= f) = .error e := rfl

lemma floor_mul_toNat_ge {q : ℚ} (hq : 1 ≤ q) (n : ℕ) :
    n ≤ (⌊q * (n : ℚ)⌋).toNat := by
  have h1 : ((n : ℤ) : ℚ) ≤ q * (n : ℚ) := by
    push_cast
    nlinarith [Nat.cast_nonneg (α := ℚ) n]
  have h2 : (n : ℤ) ≤ ⌊q * (n : ℚ)⌋ := Int.le_floor.mpr h1
  omega

lemma shortSideScale_ok (x : VideoTensor) (hh : 1 ≤ x.h) (hw : 1 ≤ x.w) :
    ∃ y, shortSideScale 224 x = .ok y ∧ y.c = x.c ∧ y.t = x.t ∧
      224 ≤ y.h ∧ 224 ≤ y.w ∧ min y.h y.w = 224 ∧
      (x.w < x.h → y.h = (⌊((x.h : ℚ) / (x.w : ℚ)) * ((224 : ℕ) : ℚ)⌋).toNat ∧ y.w = 224) ∧
      (¬ x.w < x.h → y.h = 224 ∧ y.w = (⌊((x.w : ℚ) / (x.h : ℚ)) * ((224 : ℕ) : ℚ)⌋).toNat) := by
  unfold shortSideScale
  by_cases hcmp : x.w < x.h
  · have hw0 : ¬ (x.w = 0) := by omega
    rw [if_pos hcmp, if_neg hw0]
    have hwq : (0 : ℚ) < (x.w : ℚ) := by
      have h1 : 0 < x.w := hw
      exact_mod_cast h1
    have hq : 1 ≤ (x.h : ℚ) / (x.w : ℚ) := by
      rw [one_le_div hwq]
      exact_mod_cast Nat.le_of_lt hcmp
    have h224 := floor_mul_toNat_ge hq 224
    refine ⟨interpolate x ((⌊((x.h : ℚ) / (x.w : ℚ)) * ((224 : ℕ) : ℚ)⌋).toNat) 224,
      rfl, ?_, ?_, ?_, ?_, ?_, ?_, ?_⟩
    · rfl
    · rfl
    · exact h224
    · exact le_refl 224
    · exact min_eq_right h224
    · exact fun _ => ⟨rfl, rfl⟩
    · exact fun hc => absurd hcmp hc
  · have hh0 : ¬ (x.h = 0) := by omega
    rw [if_neg hcmp, if_neg hh0]
    have hhq : (0 : ℚ) < (x.h : ℚ) := by
      have h1 : 0 < x.h := hh
      exact_mod_cast h1
    have hq : 1 ≤ (x.w : ℚ) / (x.h : ℚ) := by
      rw [one_le_div hhq]
      exact_mod_cast Nat.not_lt.mp hcmp
    have h224 := floor_mul_toNat_ge hq 224
    refine ⟨interpolate x 224 ((⌊((x.w : ℚ) / (x.h : ℚ)) * ((224 : ℕ) : ℚ)⌋).toNat),
      rfl, ?_, ?_, ?_, ?_, ?_, ?_, ?_⟩
    · rfl
    · rfl
    · exact le_refl 224
    · exact h224
    · exact min_eq_left h224
    · exact fun hc => absurd hc hcmp
    · exact fun _ => ⟨rfl, rfl⟩

lemma centerCropVideo_ok (x : VideoTensor) (hh : 224 ≤ x.h) (hw : 224 ≤ x.w) :
    centerCropVideo 224 x = .ok
      { c := x.c, t := x.t, h := 224, w := 224,
        val := fun c t hh2 ww2 =>
          x.val c t (pyRoundHalf (x.h - 224) + hh2) (pyRoundHalf (x.w - 224) + ww2) } := by
  unfold centerCropVideo
  rw [if_pos ⟨hh, hw⟩]

lemma videoTransform_ok (r : Bool) (x : VideoTensor) (hh : 1 ≤ x.h) (hw : 1 ≤ x.w) :
    ∃ y, videoTransform r x = .ok y ∧ y.c = x.c ∧ y.t = x.t ∧ y.h = 224 ∧ y.w = 224 := by
  obtain ⟨y3, hy3, hc3, ht3, hh3, hw3, -, -, -⟩ :=
    shortSideScale_ok (normalizeVideo (div255 x)) hh hw
  have hcrop := centerCropVideo_ok y3 hh3 hw3
  cases r with
  | false =>
    refine ⟨cropOut y3, ?_, ?_, ?_, ?_, ?_⟩
    · show (shortSideScale 224 (normalizeVideo (div255 x)) >>= fun x3 =>
        centerCropVideo 224 x3 >>= fun x4 => pure (if false then hflipVideo x4 else x4)) = _
      simp only [hy3, ok_bind, hcrop]
      rfl
    · exact hc3
    · exact ht3
    · rfl
    · rfl
  | true =>
    refine ⟨hflipVideo (cropOut y3), ?_, ?_, ?_, ?_, ?_⟩
    · show (shortSideScale 224 (normalizeVideo (div255 x)) >>= fun x3 =>
        centerCropVideo 224 x3 >>= fun x4 => pure (if true then hflipVideo x4 else x4)) = _
      simp only [hy3, ok_bind, hcrop]
      rfl
    · exact hc3
    · exact ht3
    · rfl
    · rfl

/-- C6 (confirmed): `get_video_transform` succeeds exactly for the `"decord"`
backend, returning the pipeline; every other string yields `NameError` at
construction, and `load_and_transform_video` likewise yields `NameError` for any
other backend, for every decoder oracle — no decode is attempted. -/
theorem backend_dispatch_gate (b : String) :
    ((getVideoTransform b).isOk = true ↔ b = "decord") ∧
    getVideoTransform "decord" = .ok videoTransform ∧
    (b ≠ "decord" →
      getVideoTransform b = .error .nameError ∧
      ∀ (decoder : String → Except Unit RawVideo) (path : String)
        (transform : VideoTensor → Except PyError VideoTensor) (nf : ℕ),
        loadAndTransformVideo decoder path transform b nf = .error .nameError) := by
  refine ⟨?_, ?_, fun hb => ⟨?_, fun decoder path transform nf => ?_⟩⟩
  · unfold getVideoTransform
    by_cases h : b = "decord" <;> simp [h, Except.isOk, Except.toBool]
  · unfold getVideoTransform
    rw [if_pos rfl]
  · unfold getVideoTransform
    rw [if_neg hb]
  · unfold loadAndTransformVideo
    rw [if_neg hb]

/-- Witness for C6 at the unsupported backend `"opencv"`. -/
theorem backend_dispatch_gate_witness :
    getVideoTransform "opencv" = .error .nameError ∧
    getVideoTransform "decord" = .ok videoTransform ∧
    loadAndTransformVideo decoder0 "clip.mp4" (videoTransform false) "opencv" 8 =
      .error .nameError := by
  have h := backend_dispatch_gate "opencv"
  exact ⟨(h.2.2 (by decide)).1, h.2.1,
    (h.2.2 (by decide)).2 decoder0 "clip.mp4" (videoTransform false) 8⟩

/-- C7 (confirmed): for every input video tensor with positive spatial dimensions
and either flip outcome, the full pipeline returns a tensor whose final two
dimensions are exactly 224 by 224. -/
theorem transform_output_spatial_224 (x : VideoTensor) (r : Bool)
    (hh : 1 ≤ x.h) (hw : 1 ≤ x.w) :
    ∃ y, videoTransform r x = .ok y ∧ y.h = 224 ∧ y.w = 224 := by
  obtain ⟨y, h1, -, -, h4, h5⟩ := videoTransform_ok r x hh hw
  exact ⟨y, h1, h4, h5⟩

/-- Witness for C7: on a 1x5 input the pipeline output has spatial shape 224x224. -/
theorem transform_output_spatial_224_witness :
    (videoTransform false wit7).map (fun y => (y.h, y.w)) = .ok (224, 224) := by
  obtain ⟨y, h1, h2, h3⟩ := transform_output_spatial_224 wit7 false (by decide) (by decide)
  rw [h1]
  show Except.ok (y.h, y.w) = .ok (224, 224)
  rw [h2, h3]

lemma floor_toNat_bounds {Q : ℚ} (hQ : 0 ≤ Q) :
    Q - 1 < ((⌊Q⌋.toNat : ℕ) : ℚ) ∧ ((⌊Q⌋.toNat : ℕ) : ℚ) ≤ Q := by
  have h0 : 0 ≤ ⌊Q⌋ := Int.floor_nonneg.mpr hQ
  have heq : ((⌊Q⌋.toNat : ℕ) : ℚ) = ((⌊Q⌋ : ℤ) : ℚ) := by
    exact_mod_cast congrArg (fun z : ℤ => (z : ℚ)) (Int.toNat_of_nonneg h0)
  rw [heq]
  exact ⟨Int.sub_one_lt_floor Q, Int.floor_le Q⟩

/-- C8 (confirmed): on any input with positive spatial dimensions, the resize
computes `new_h = floor(h/w * 224), new_w = 224` when `w < h` and
`new_w = floor(w/h * 224), new_h = 224` otherwise; the short side of the result is
exactly 224 and the long side is within 1 of the exact aspect-preserving length
(the floor bounds). -/
theorem short_side_scale_size_formula (x : VideoTensor) (hh : 1 ≤ x.h) (hw : 1 ≤ x.w) :
    ∃ y, shortSideScale 224 x = .ok y ∧
      (x.w < x.h →
        y.h = (⌊((x.h : ℚ) / (x.w : ℚ)) * ((224 : ℕ) : ℚ)⌋).toNat ∧ y.w = 224 ∧
        ((x.h : ℚ) / (x.w : ℚ)) * 224 - 1 < (y.h : ℚ) ∧
        (y.h : ℚ) ≤ ((x.h : ℚ) / (x.w : ℚ)) * 224) ∧
      (¬ x.w < x.h →
        y.h = 224 ∧ y.w = (⌊((x.w : ℚ) / (x.h : ℚ)) * ((224 : ℕ) : ℚ)⌋).toNat ∧
        ((x.w : ℚ) / (x.h : ℚ)) * 224 - 1 < (y.w : ℚ) ∧
        (y.w : ℚ) ≤ ((x.w : ℚ) / (x.h : ℚ)) * 224) ∧
      min y.h y.w = 224 := by
  obtain ⟨y, hok, -, -, -, -, hmin, hlt, hge⟩ := shortSideScale_ok x hh hw
  have hcast : ((224 : ℕ) : ℚ) = (224 : ℚ) := by norm_num
  refine ⟨y, hok, ?_, ?_, hmin⟩
  · intro hcmp
    obtain ⟨hyh, hyw⟩ := hlt hcmp
    have hQ : 0 ≤ ((x.h : ℚ) / (x.w : ℚ)) * ((224 : ℕ) : ℚ) := by positivity
    obtain ⟨hb1, hb2⟩ := floor_toNat_bounds hQ
    rw [hcast] at hb1 hb2
    refine ⟨hyh, hyw, ?_, ?_⟩
    · rw [hyh]; exact hb1
    · rw [hyh]; exact hb2
  · intro hcmp
    obtain ⟨hyh, hyw⟩ := hge hcmp
    have hQ : 0 ≤ ((x.w : ℚ) / (x.h : ℚ)) * ((224 : ℕ) : ℚ) := by positivity
    obtain ⟨hb1, hb2⟩ := floor_toNat_bounds hQ
    rw [hcast] at hb1 hb2
    refine ⟨hyh, hyw, ?_, ?_⟩
    · rw [hyw]; exact hb1
    · rw [hyw]; exact hb2

/-- Witness for C8: on a 5x3 input the resize yields height `floor(5/3*224) = 373`
and width 224. -/
theorem short_side_scale_size_formula_witness :
    (shortSideScale 224 wit8).map (fun y => (y.h, y.w)) = .ok (373, 224) := by
  obtain ⟨y, hok, hlt, -, -⟩ := short_side_scale_size_formula wit8 (by decide) (by decide)
  obtain ⟨hyh, hyw, -, -⟩ := hlt (by decide)
  rw [hok]
  show Except.ok (y.h, y.w) = .ok (373, 224)
  rw [hyh, hyw]
  have : (⌊((wit8.h : ℚ) / (wit8.w : ℚ)) * ((224 : ℕ) : ℚ)⌋) = 373 := by
    show (⌊(((5 : ℕ) : ℚ) / ((3 : ℕ) : ℚ)) * ((224 : ℕ) : ℚ)⌋) = 373
    norm_num [Rat.floor_def]
  rw [this]
  rfl

/-! ### Determinism of the transform (claim C4) -/

lemma VideoTensor.eqv_refl (a : VideoTensor) : a.eqv a :=
  ⟨rfl, rfl, rfl, rfl, fun _ _ _ _ _ _ _ _ => rfl⟩

lemma exceptVideoEqv_refl (z : Except PyError VideoTensor) : exceptVideoEqv z z := by
  cases z with
  | ok a => exact a.eqv_refl
  | error e => exact rfl

lemma videoTransform_true_eq (x : VideoTensor) :
    videoTransform true x = (videoTransform false x).map hflipVideo := by
  show (shortSideScale 224 (normalizeVideo (div255 x)) >>= fun x3 =>
      centerCropVideo 224 x3 >>= fun x4 => pure (if true then hflipVideo x4 else x4)) =
    ((shortSideScale 224 (normalizeVideo (div255 x)) >>= fun x3 =>
      centerCropVideo 224 x3 >>= fun x4 =>
        pure (if false then hflipVideo x4 else x4)).map hflipVideo)
  cases hs : shortSideScale 224 (normalizeVideo (div255 x)) with
  | error e => rfl
  | ok y3 =>
    simp only [ok_bind]
    cases hc : centerCropVideo 224 y3 with
    | error e => rfl
    | ok y4 => rfl

lemma hflip_hflip_eqv (y : VideoTensor) : y.eqv (hflipVideo (hflipVideo y)) := by
  refine ⟨rfl, rfl, rfl, rfl, fun ci ti hi wi _ _ _ hwi => ?_⟩
  show y.val ci ti hi wi = y.val ci ti hi (y.w - 1 - (y.w - 1 - wi))
  congr 1
  omega

/-- C4 (amended): the pipeline is deterministic up to the final random horizontal
flip: any two applications to the same input either agree as tensors or differ by
exactly a horizontal mirror of the output (and errors agree exactly). -/
theorem video_transform_deterministic_up_to_flip (x : VideoTensor) (r1 r2 : Bool) :
    exceptVideoEqv (videoTransform r1 x) (videoTransform r2 x) ∨
    exceptVideoEqv (videoTransform r1 x) ((videoTransform r2 x).map hflipVideo) := by
  cases r1 <;> cases r2
  · exact Or.inl (exceptVideoEqv_refl _)
  · right
    rw [videoTransform_true_eq]
    cases hz : videoTransform false x with
    | error e => exact rfl
    | ok y => exact hflip_hflip_eqv y
  · right
    rw [videoTransform_true_eq]
    exact exceptVideoEqv_refl _
  · exact Or.inl (exceptVideoEqv_refl _)

/-- C4 counterexample: the two possible random draws of the flip stage produce
different output tensors on `cexInput` (they differ at pixel `(0,0,0,0)`), so the
pipeline built by `get_video_transform` is not deterministic. -/
theorem video_transform_not_deterministic :
    ¬ exceptVideoEqv (videoTransform false cexInput) (videoTransform true cexInput) := by
  intro hcontra
  have hW : ((⌊(((normalizeVideo (div255 cexInput)).w : ℚ) /
      ((normalizeVideo (div255 cexInput)).h : ℚ)) * ((224 : ℕ) : ℚ)⌋).toNat) = 224 := by
    show ((⌊(((224 : ℕ) : ℚ) / ((224 : ℕ) : ℚ)) * ((224 : ℕ) : ℚ)⌋).toNat) = 224
    norm_num [Rat.floor_def]
    rfl
  have hs2 : shortSideScale 224 (normalizeVideo (div255 cexInput)) =
      .ok (interpolate (normalizeVideo (div255 cexInput)) 224 224) := by
    unfold shortSideScale
    rw [if_neg (by decide), if_neg (by decide)]
    show Except.ok (interpolate (normalizeVideo (div255 cexInput)) 224
      ((⌊(((normalizeVideo (div255 cexInput)).w : ℚ) /
        ((normalizeVideo (div255 cexInput)).h : ℚ)) * ((224 : ℕ) : ℚ)⌋).toNat)) = _
    rw [hW]
  have hF : videoTransform false cexInput =
      .ok (cropOut (interpolate (normalizeVideo (div255 cexInput)) 224 224)) := by
    show (shortSideScale 224 (normalizeVideo (div255 cexInput)) >>= fun x3 =>
      centerCropVideo 224 x3 >>= fun x4 => pure (if false then hflipVideo x4 else x4)) = _
    simp only [hs2, ok_bind,
      centerCropVideo_ok (interpolate (normalizeVideo (div255 cexInput)) 224 224)
        (le_refl 224) (le_refl 224)]
    rfl
  have hT : videoTransform true cexInput =
      .ok (hflipVideo (cropOut (interpolate (normalizeVideo (div255 cexInput)) 224 224))) := by
    rw [videoTransform_true_eq, hF]
    rfl
  rw [hF, hT] at hcontra
  replace hcontra : (cropOut (interpolate (normalizeVideo (div255 cexInput)) 224 224)).eqv
      (hflipVideo (cropOut (interpolate (normalizeVideo (div255 cexInput)) 224 224))) := hcontra
  have hval := hcontra.2.2.2.2 0 0 0 0 (by decide) (by decide) (by decide) (by decide)
  simp only [cropOut, hflipVideo, interpolate, normalizeVideo, div255, cexInput, srcIndex,
    pyRoundHalf, OPENAI_DATASET_MEAN, OPENAI_DATASET_STD, List.getD_cons_zero,
    List.getD_cons_succ] at hval
  norm_num [Rat.floor_def] at hval
  simp at hval
  norm_num at hval

/-! ### The multimodal call wrapper (claims C1, C9, C10) -/

lemma shortSideScale_error_kind (size : ℕ) (x : VideoTensor) (e : PyError)
    (h : shortSideScale size x = .error e) : e = .zeroDivisionError := by
  unfold shortSideScale at h
  split at h
  · split at h
    · injection h with h2
      exact h2.symm
    · exact Except.noConfusion h
  · split at h
    · injection h with h2
      exact h2.symm
    · exact Except.noConfusion h

lemma centerCropVideo_error_kind (size : ℕ) (x : VideoTensor) (e : PyError)
    (h : centerCropVideo size x = .error e) : e = .assertionError := by
  unfold centerCropVideo at h
  split at h
  · exact Except.noConfusion h
  · injection h with h2
    exact h2.symm

lemma videoTransform_error_kind (r : Bool) (x : VideoTensor) (e : PyError)
    (h : videoTransform r x = .error e) :
    e = .zeroDivisionError ∨ e = .assertionError := by
  have h' : (shortSideScale 224 (normalizeVideo (div255 x)) >>= fun x3 =>
    centerCropVideo 224 x3 >>= fun x4 => pure (if r then hflipVideo x4 else x4)) = .error e := h
  cases hs : shortSideScale 224 (normalizeVideo (div255 x)) with
  | error e2 =>
    rw [hs, error_bind] at h'
    injection h' with h2
    exact Or.inl (h2 ▸ shortSideScale_error_kind 224 _ e2 hs)
  | ok y3 =>
    rw [hs, ok_bind] at h'
    cases hc : centerCropVideo 224 y3 with
    | error e2 =>
      rw [hc, error_bind] at h'
      injection h' with h2
      exact Or.inr (h2 ▸ centerCropVideo_error_kind 224 y3 e2 hc)
    | ok y4 =>
      rw [hc, ok_bind] at h'
      exact Except.noConfusion h'

lemma loadAndTransformVideo_not_valueError (decoder : String → Except Unit RawVideo)
    (path : String) (r : Bool) (backend : String) (nf : ℕ) :
    loadAndTransformVideo decoder path (videoTransform r) backend nf ≠ .error .valueError := by
  intro h
  unfold loadAndTransformVideo at h
  split at h
  · split at h
    · injection h with h2
      exact PyError.noConfusion h2
    · rcases videoTransform_error_kind r _ _ h with h2 | h2 <;> exact PyError.noConfusion h2
  · injection h with h2
    exact PyError.noConfusion h2

lemma imageFeatures_not_valueError (decoder : String → Except Unit RawVideo)
    (cfg : VisionConfig) (flips : ℕ → Bool) (images : ImagesArg) :
    imageFeatures decoder cfg flips images ≠ .error .valueError := by
  unfold imageFeatures
  generalize (make_list_of_images images).enum = l
  induction l with
  | nil =>
    intro h
    exact Except.noConfusion h
  | cons a as ih =>
    intro h
    rw [List.mapM_cons] at h
    cases hf : loadAndTransformVideo decoder a.2 (videoTransform (flips a.1))
        cfg.video_decode_backend cfg.num_frames with
    | error e =>
      rw [hf, error_bind] at h
      injection h with h2
      exact loadAndTransformVideo_not_valueError decoder a.2 (flips a.1)
        cfg.video_decode_backend cfg.num_frames (h2 ▸ hf)
    | ok y =>
      rw [hf, ok_bind] at h
      cases hm : as.mapM (fun ip =>
          loadAndTransformVideo decoder ip.2 (videoTransform (flips ip.1))
            cfg.video_decode_backend cfg.num_frames) with
      | error e =>
        rw [hm, error_bind] at h
        injection h with h2
        exact ih (h2 ▸ hm)
      | ok ys =>
        rw [hm, ok_bind] at h
        exact Except.noConfusion h

/-- C9 (confirmed): the processor call raises the value error exactly when both
`text` and `images` are omitted, and in that case the result does not depend on
the tokenizer or the decoder — neither has been invoked. -/
theorem call_value_error_iff_both_none (decoder d2 : String → Except Unit RawVideo)
    (tok tok2 : String → ℕ → List (String × Val)) (cfg : VisionConfig)
    (flips : ℕ → Bool) (images : Option ImagesArg) (text : Option String) (cl : ℕ) :
    (processorCall decoder tok cfg flips images text cl = .error .valueError ↔
      text = none ∧ images = none) ∧
    processorCall decoder tok cfg flips none none cl =
      processorCall d2 tok2 cfg flips none none cl := by
  refine ⟨?_, rfl⟩
  cases text with
  | none =>
    cases images with
    | none => simp [processorCall]
    | some imgs =>
      simp only [processorCall, and_false, iff_false, Option.some_ne_none]
      intro h
      cases hif : imageFeatures decoder cfg flips imgs with
      | error e =>
        rw [hif] at h
        injection h with h2
        exact imageFeatures_not_valueError decoder cfg flips imgs (h2 ▸ hif)
      | ok feats =>
        rw [hif] at h
        cases feats with
        | nil =>
          injection h with h2
          exact PyError.noConfusion h2
        | cons f fs => exact Except.noConfusion h
  | some t =>
    cases images with
    | none =>
      constructor
      · intro h
        exact Except.noConfusion h
      · rintro ⟨h, -⟩
        exact Option.noConfusion h
    | some imgs =>
      constructor
      · intro h
        cases hif : imageFeatures decoder cfg flips imgs with
        | error e =>
          have h' : (match imageFeatures decoder cfg flips imgs with
            | .error e => (.error e : Except PyError (List (String × Val)))
            | .ok feats =>
              match torchStack feats with
              | .error e => .error e
              | .ok stacked => .ok (setKey (tok t cl) "pixel_values" (Val.pixBatch stacked))) =
              .error .valueError := h
          rw [hif] at h'
          injection h' with h2
          exact absurd (h2 ▸ hif) (imageFeatures_not_valueError decoder cfg flips imgs)
        | ok feats =>
          have h' : (match imageFeatures decoder cfg flips imgs with
            | .error e => (.error e : Except PyError (List (String × Val)))
            | .ok feats =>
              match torchStack feats with
              | .error e => .error e
              | .ok stacked => .ok (setKey (tok t cl) "pixel_values" (Val.pixBatch stacked))) =
              .error .valueError := h
          rw [hif] at h'
          cases feats with
          | nil =>
            injection h' with h2
            exact PyError.noConfusion h2
          | cons f fs => exact Except.noConfusion h'
      · rintro ⟨h, -⟩
        exact Option.noConfusion h

/-- C10 (confirmed): calling with `text = None` and an empty image list does not
trigger the missing-arguments value error (the empty list is not `None`) and does
not return an empty pixel batch; the call fails with the runtime error of stacking
an empty tensor list, for every decoder, tokenizer, configuration and flip draw. -/
theorem call_empty_image_list_stack_error (decoder : String → Except Unit RawVideo)
    (tok : String → ℕ → List (String × Val)) (cfg : VisionConfig)
    (flips : ℕ → Bool) (cl : ℕ) :
    processorCall decoder tok cfg flips (some (.list [])) none cl = .error .runtimeError ∧
    (PyError.runtimeError ≠ PyError.valueError) := by
  exact ⟨rfl, by decide⟩

/-- C1 (amended): whenever per-item decoding succeeds, the produced feature list
is nonempty, and the tokenizer encoding carries no pixel key: a text-only call
returns the tokenizer encoding verbatim (hence without pixel key); an images-only
call returns exactly the single-key mapping holding the stacked pixel batch; a
call with both returns the tokenizer encoding with the pixel batch merged in
under `"pixel_values"`.  (As frozen, the claim fails when the supplied image list
is empty: see the counterexample.) -/
theorem processor_call_result_shapes (decoder : String → Except Unit RawVideo)
    (tok : String → ℕ → List (String × Val)) (cfg : VisionConfig) (flips : ℕ → Bool)
    (cl : ℕ) (t : String) (imgs : ImagesArg) (fs : List VideoTensor)
    (hfs : imageFeatures decoder cfg flips imgs = .ok fs)
    (hne : fs ≠ [])
    (hpk : "pixel_values" ∉ (tok t cl).map Prod.fst) :
    processorCall decoder tok cfg flips none (some t) cl = .ok (tok t cl) ∧
    (∀ enc, processorCall decoder tok cfg flips none (some t) cl = .ok enc →
      "pixel_values" ∉ enc.map Prod.fst) ∧
    processorCall decoder tok cfg flips (some imgs) none cl =
      .ok [("pixel_values", Val.pixBatch fs)] ∧
    processorCall decoder tok cfg flips (some imgs) (some t) cl =
      .ok (setKey (tok t cl) "pixel_values" (Val.pixBatch fs)) := by
  obtain ⟨f, fs', rfl⟩ : ∃ f fs', fs = f :: fs' := by
    cases fs with
    | nil => exact absurd rfl hne
    | cons f fs' => exact ⟨f, fs', rfl⟩
  refine ⟨rfl, ?_, ?_, ?_⟩
  · intro enc henc
    injection henc with h2
    exact h2 ▸ hpk
  · simp [processorCall, hfs, torchStack]
  · simp [processorCall, hfs, torchStack]

/-- C1 counterexample: with text supplied and images the empty list, the call does
not return the merged mapping the claim promises for the both-supplied case; it
fails with the runtime error of stacking an empty tensor list. -/
theorem processor_call_empty_list_breaks_shape :
    processorCall decoder0 tok0 cfg0 flips0 (some (.list [])) (some "hi") 77 =
      .error .runtimeError := rfl

/-- Witness for C1 on concrete oracles: the three call shapes, with the pixel key
structure projected out. -/
theorem processor_call_result_shapes_witness :
    processorCall decoder0 tok0 cfg0 flips0 none (some "hi") 77 = .ok (tok0 "hi" 77) ∧
    (processorCall decoder0 tok0 cfg0 flips0 (some (.single "clip.mp4")) none 77).map
      (fun enc => enc.map Prod.fst) = .ok ["pixel_values"] ∧
    (processorCall decoder0 tok0 cfg0 flips0 (some (.single "clip.mp4")) (some "hi") 77).map
      (fun enc => enc.map Prod.fst) = .ok ["input_ids", "pixel_values"] := by
  obtain ⟨y, hy, -, -, -, -⟩ := videoTransform_ok false videoData0 (by decide) (by decide)
  have hload : loadAndTransformVideo decoder0 "clip.mp4" (videoTransform false) "decord" 2 =
      videoTransform false videoData0 := rfl
  have hfs : imageFeatures decoder0 cfg0 flips0 (.single "clip.mp4") = .ok [y] := by
    unfold imageFeatures
    show ([((0 : ℕ), "clip.mp4")].mapM fun ip =>
      loadAndTransformVideo decoder0 ip.2 (videoTransform (flips0 ip.1))
        cfg0.video_decode_backend cfg0.num_frames) = .ok [y]
    rw [List.mapM_cons]
    have hone : loadAndTransformVideo decoder0 "clip.mp4" (videoTransform (flips0 0))
        cfg0.video_decode_backend cfg0.num_frames = .ok y := by
      show loadAndTransformVideo decoder0 "clip.mp4" (videoTransform false) "decord" 2 = .ok y
      rw [hload, hy]
    rw [hone, ok_bind]
    rfl
  have h := processor_call_result_shapes decoder0 tok0 cfg0 flips0 77 "hi" (.single "clip.mp4")
    [y] hfs (List.cons_ne_nil y []) (by decide)
  refine ⟨h.1, ?_, ?_⟩
  · rw [h.2.2.1]
    rfl
  · rw [h.2.2.2]
    rfl

/-! ### Decode forwarding (claim C5) -/

/-- C5 (amended): for calls passing no positional argument, `batch_decode` and
`decode` forward the keyword arguments unchanged with `skip_special_tokens`
defaulted to true and return the tokenizer result verbatim; a leading positional
argument is instead consumed as `skip_special_tokens` and forwarded as that
keyword, with only the remaining positionals forwarded. -/
theorem decode_forwarding (R : Type) (tokM : List Val → Kwargs → R) (kw : Kwargs) :
    (batch_decode tokM [] kw = .ok (forwardWithDefaultSpec tokM [] kw)) ∧
    (decode tokM [] kw = .ok (forwardWithDefaultSpec tokM [] kw)) ∧
    (∀ a rest, kw "skip_special_tokens" = none →
      batch_decode tokM (a :: rest) kw =
        .ok (tokM rest (kwSet kw "skip_special_tokens" a)) ∧
      decode tokM (a :: rest) kw =
        .ok (tokM rest (kwSet kw "skip_special_tokens" a))) := by
  have hfun : kwSet kw "skip_special_tokens" ((kw "skip_special_tokens").getD (Val.bool true)) =
      (fun k => if k = "skip_special_tokens" then some ((kw k).getD (Val.bool true)) else kw k) := by
    funext k
    unfold kwSet
    by_cases hk : k = "skip_special_tokens"
    · rw [if_pos hk, if_pos hk, hk]
    · rw [if_neg hk, if_neg hk]
  refine ⟨?_, ?_, ?_⟩
  · show Except.ok (tokM []
      (kwSet kw "skip_special_tokens" ((kw "skip_special_tokens").getD (Val.bool true)))) = _
    rw [hfun]
    rfl
  · show Except.ok (tokM []
      (kwSet kw "skip_special_tokens" ((kw "skip_special_tokens").getD (Val.bool true)))) = _
    rw [hfun]
    rfl
  · intro a rest hnone
    constructor
    · simp [batch_decode, hnone]
    · simp [decode, hnone]

/-- C5 counterexample: using a tokenizer oracle that returns the positional list
it receives, a call with the single positional argument `Val.nat 5` reaches the
tokenizer with NO positional arguments (the argument was consumed as
`skip_special_tokens`), so arguments are not forwarded unchanged. -/
theorem decode_positional_not_forwarded :
    batch_decode (fun p _ => p) [Val.nat 5] (fun _ => none) ≠
      .ok (forwardWithDefaultSpec (fun p _ => p) [Val.nat 5] (fun _ => none)) := by
  intro h
  have h2 : ([] : List Val) = [Val.nat 5] := by injection h
  exact List.noConfusion h2

/-- Witness for C5: keyword-only forwarding and the positional-consumption case,
on the positional-projection tokenizer oracle. -/
theorem decode_forwarding_witness :
    batch_decode (fun (p : List Val) (_ : Kwargs) => p) [] (fun _ => none) = .ok [] ∧
    decode (fun (p : List Val) (_ : Kwargs) => p) (Val.nat 3 :: []) (fun _ => none) =
      .ok [] := by
  have h := decode_forwarding (List Val) (fun p _ => p) (fun _ => none)
  exact ⟨h.1, (h.2.2 (Val.nat 3) [] rfl).2⟩
